import Mathlib

/-!
Shallow embedding of `raptium/auto-add-route` (src/main.rs, src/store.rs):
the zone/alias matching engine (`DnsAutoRoutes::log_dns_response` and its
helpers) and the persistent query log (`SQLiteDnsLogStore`).

External effects are made explicit:
* the OS route command (`add_vpn_route`) and the store upsert call
  (`on_query_corp`) are recorded as emitted events;
* the SQLite table `dns_log (timestamp INTEGER, host TEXT)` with its
  `UNIQUE INDEX uniq_host ON dns_log (host)` is an association list keyed
  by host;
* `SystemTime::now` is an explicit `now : Nat` argument (unix seconds);
* underlying sqlite I/O failure (which surfaces as `StoreError`) is a
  per-host oracle `ioFail` for writes and a flag `loadFail` for reads.
-/

namespace AutoRoute

/-- Domain name from the `trust_dns_proto` dependency: an ordered sequence
of labels. `PartialEq`/`Hash`/`zone_of` on `Name` compare labels
case-insensitively. -/
structure Name where
  labels : List String
deriving DecidableEq, Repr

/-- ASCII lowercasing of one label (DNS names are compared
ASCII-case-insensitively). -/
def lowerLabel (l : String) : String :=
  String.mk (l.data.map Char.toLower)

/-- The case-lowered label sequence, the form in which `trust_dns_proto`
compares names. -/
def Name.lower (n : Name) : List String :=
  n.labels.map lowerLabel

/-- `Name::zone_of(self, name)`: `self` is a zone of `name` iff `self`'s
labels are a (contiguous, in-order) suffix of `name`'s labels,
case-insensitively. -/
def Name.zone_of (self other : Name) : Bool :=
  List.isSuffixOf self.lower other.lower

/-- Case-insensitive name equality, as used by `HashSet<Name>` membership. -/
def nameEq (a b : Name) : Bool :=
  a.lower == b.lower

/-- `self.alias.contains(&n)` on the engine's `HashSet<Name>`. -/
def aliasContains (s : List Name) (n : Name) : Bool :=
  s.any (fun m => nameEq m n)

/-- `self.alias.insert(n)` on the engine's `HashSet<Name>`: a no-op when an
equal (case-insensitive) name is already present. -/
def aliasInsert (s : List Name) (n : Name) : List Name :=
  if aliasContains s n then s else n :: s

/-- `ans.name().to_string()`: captured owner names are fully qualified, and
`Display` for `Name` writes every label followed by a dot
(`corp.example.com.`). -/
def Name.display (n : Name) : String :=
  String.join (n.labels.map (fun l => l ++ "."))

/-- `host.trim_end_matches(".")`: strip every trailing dot. -/
def trim_end_dots (s : String) : String :=
  String.mk ((s.data.reverse.dropWhile (fun c => c == '.')).reverse)

/-- Whether a string ends in a dot. -/
def endsDot (s : String) : Bool :=
  s.data.getLast? == some '.'

/-- `store::StoreError`. -/
structure StoreError where
  message : String
deriving DecidableEq, Repr

/-- `store::LogEntry`. -/
structure LogEntry where
  timestamp : Nat
  host : String
deriving DecidableEq, Repr

/-- The persistent state behind `SQLiteDnsLogStore`: the `dns_log` table as
an association list of `(host, timestamp)` rows (the unique index on
`host` is the store invariant, not enforced by the list type), together
with failure oracles for the underlying sqlite I/O. -/
structure Store where
  rows : List (String × Nat)
  ioFail : String → Bool
  loadFail : Bool

/-- The effect of
`INSERT INTO dns_log (timestamp, host) VALUES (?, ?) ON CONFLICT(host) DO
UPDATE SET timestamp=excluded.timestamp` on the rows. -/
def upsertRow (rows : List (String × Nat)) (host : String) (ts : Nat) :
    List (String × Nat) :=
  if rows.any (fun r => r.1 == host) then
    rows.map (fun r => if r.1 == host then (host, ts) else r)
  else
    rows ++ [(host, ts)]

/-- `SQLiteDnsLogStore::on_query`: upsert `host` with the current unix
timestamp; fails with `StoreError` when the underlying I/O fails. -/
def Store.on_query (st : Store) (host : String) (now : Nat) :
    Except StoreError Store :=
  if st.ioFail host then
    Except.error { message := "sqlite error" }
  else
    Except.ok { st with rows := upsertRow st.rows host now }

/-- The cursor loop of `load_entries`: keep rows with
`timestamp > recent`, skipping rows whose timestamp reads as `0` or whose
host reads as `""` (the `unwrap_or` defaults for NULL columns). -/
def loadFilter (recent : Nat) : List (String × Nat) → List LogEntry
  | [] => []
  | (h, ts) :: rest =>
    if recent < ts then
      (if ts != 0 && h != "" then [{ timestamp := ts, host := h }] else [])
        ++ loadFilter recent rest
    else
      loadFilter recent rest

/-- `SQLiteDnsLogStore::load_entries`:
`SELECT timestamp, host FROM dns_log WHERE timestamp > ?` with
`? = now - 7*86400` (`Duration::sub` panics when `now < 7` days, so claims
are stated under `604800 ≤ now`, where `Nat` subtraction agrees). The
store state is returned alongside the result to make the frame explicit. -/
def Store.load_entries (st : Store) (now : Nat) :
    Except StoreError (List LogEntry) × Store :=
  if st.loadFail then
    (Except.error { message := "sqlite error" }, st)
  else
    (Except.ok (loadFilter (now - 86400 * 7) st.rows), st)

/-- `trust_dns_proto::rr::RecordType`, restricted to the discriminants the
engine matches on. -/
inductive RecordType where
  | A
  | CNAME
  | other
deriving DecidableEq, Repr

/-- `trust_dns_proto::rr::RData`: an IPv4 address for A records (kept
opaque as a `Nat`), a target name for CNAME. -/
inductive RData where
  | a (addr : Nat)
  | cname (target : Name)
deriving DecidableEq, Repr

/-- One decoded answer record: owner name, record type and optional data,
exactly the triple `log_dns_response` consumes. -/
structure Answer where
  name : Name
  rr_type : RecordType
  data : Option RData
deriving DecidableEq, Repr

/-- The externally visible effects of processing one answer:
`route` is an `add_vpn_route` invocation (route intent) for an address,
`logUpsert` is an `on_query_corp` invocation (log intent) carrying the
owner name's string form. -/
inductive Event where
  | route (addr : Nat)
  | logUpsert (host : String)
deriving DecidableEq, Repr

/-- `DnsAutoRoutes`: gateway target, alias set, configured zones and the
optional log store. -/
structure EngineState where
  target : Nat
  aliasSet : List Name
  corp_zones : List Name
  store : Option Store

/-- `DnsAutoRoutes::on_query_corp`: a no-op when no store is configured;
otherwise upsert the trailing-dot-trimmed host, and on `StoreError` log a
warning and keep the store as it was. -/
def on_query_corp (store : Option Store) (host : String) (now : Nat) :
    Option Store :=
  match store with
  | none => none
  | some st =>
    match st.on_query (trim_end_dots host) now with
    | Except.ok st2 => some st2
    | Except.error _ => some st

/-- The body of the `for ans in msg.answers()` loop of
`DnsAutoRoutes::log_dns_response`, for one answer: compute `is_alias` and
`is_corp` from the current state, log the host when corporate, then
dispatch on `(rr_type, data)`. -/
def processAnswer (s : EngineState) (now : Nat) (ans : Answer) :
    EngineState × List Event :=
  let is_alias := aliasContains s.aliasSet ans.name
  let is_corp := s.corp_zones.any (fun z => z.zone_of ans.name)
  let s1 : EngineState :=
    if is_corp then
      { s with store := on_query_corp s.store ans.name.display now }
    else s
  let ev1 : List Event :=
    if is_corp then [Event.logUpsert ans.name.display] else []
  match ans.rr_type, ans.data with
  | RecordType.A, some (RData.a addr) =>
    (s1, ev1 ++ (if is_corp || is_alias then [Event.route addr] else []))
  | RecordType.CNAME, some (RData.cname cn) =>
    (if is_corp then { s1 with aliasSet := aliasInsert s1.aliasSet cn } else s1, ev1)
  | _, _ => (s1, ev1)

/-- `DnsAutoRoutes::log_dns_response`: process the answers of one response
in order, threading the engine state and concatenating emitted events. -/
def log_dns_response (s : EngineState) (now : Nat) :
    List Answer → EngineState × List Event
  | [] => (s, [])
  | ans :: rest =>
    let p := processAnswer s now ans
    let q := log_dns_response p.1 now rest
    (q.1, p.2 ++ q.2)

/-- The host keys currently persisted in an optional store. -/
def storeKeys : Option Store → List String
  | none => []
  | some st => st.rows.map Prod.fst

/-! Concrete fixtures used by counterexamples and witnesses: zone
`corp.example.com`, CNAME target `edge.cdn.net`, and an engine configured
with that single zone, an empty alias set and no store. -/

def exZone : Name := ⟨["corp", "example", "com"]⟩

def exEdge : Name := ⟨["edge", "cdn", "net"]⟩

def exS0 : EngineState := ⟨1, [], [exZone], none⟩

def exAnsCname : Answer := ⟨exZone, RecordType.CNAME, some (RData.cname exEdge)⟩

def exAnsA : Answer := ⟨exEdge, RecordType.A, some (RData.a 1234)⟩

/-! Helper lemmas shared across the development. -/

theorem nameEq_refl (n : Name) : nameEq n n = true := by
  simp [nameEq]

theorem aliasContains_insert_self (s : List Name) (n : Name) :
    aliasContains (aliasInsert s n) n = true := by
  by_cases h : aliasContains s n = true
  · rw [aliasInsert, if_pos h]
    exact h
  · rw [aliasInsert, if_neg h]
    simp [aliasContains, nameEq_refl]

/-- `isCorp`/`isAlias` and the configuration are untouched by the store
update inside `processAnswer`. -/
theorem processAnswer_core (s : EngineState) (now : Nat) (ans : Answer) :
    (processAnswer s now ans).1.corp_zones = s.corp_zones ∧
    (processAnswer s now ans).1.target = s.target := by
  obtain ⟨nm, rt, d⟩ := ans
  unfold processAnswer
  cases rt <;> cases d <;> simp <;> split <;> simp_all <;> split <;> simp_all

/-- C1 — COUNTEREXAMPLE. The claim says a CNAME target inserted while
processing one answer of a response is never consulted for any other
answer of the same response. With zone `corp.example.com`, an empty alias
set, and a single response carrying answer 1 `CNAME corp.example.com ->
edge.cdn.net` then answer 2 `A edge.cdn.net -> 1234`, `edge.cdn.net` is
neither a configured zone match nor a pre-existing alias, yet the code
emits a route intent for answer 2: the alias inserted by answer 1 IS
consulted by answer 2 of the same response. -/
theorem C1_counterexample :
    aliasContains exS0.aliasSet exEdge = false ∧
    exS0.corp_zones.any (fun z => z.zone_of exEdge) = false ∧
    (log_dns_response exS0 7 [exAnsCname, exAnsA]).2
      = [Event.logUpsert "corp.example.com.", Event.route 1234] := by
  decide

/-- C1 (amended) — answers of a response are processed strictly in order:
splitting the answer list anywhere, the events of the prefix are exactly
those of processing the prefix alone (so a CNAME inserted at answer N
never retroactively affects answers before N), and the suffix is
processed from the state the prefix produced (so aliases inserted by
earlier answers of the SAME response are consulted by later answers). -/
theorem C1_amended_sequential (s : EngineState) (now : Nat)
    (l1 l2 : List Answer) :
    log_dns_response s now (l1 ++ l2)
      = ((log_dns_response (log_dns_response s now l1).1 now l2).1,
         (log_dns_response s now l1).2
           ++ (log_dns_response (log_dns_response s now l1).1 now l2).2) := by
  induction l1 generalizing s with
  | nil => simp [log_dns_response]
  | cons a t ih => simp [log_dns_response, ih]

/-- C4 — `zone_of` is reflexive, and `z.zone_of n` holds iff `n`'s
trailing labels equal `z`'s labels exactly, case-insensitively (i.e. the
case-lowered labels of `z` are a suffix of those of `n`). -/
theorem C4_zone_of_spec :
    (∀ z : Name, z.zone_of z = true) ∧
    (∀ z n : Name, z.zone_of n = true ↔ ∃ pre, pre ++ z.lower = n.lower) := by
  constructor
  · intro z
    rw [Name.zone_of]
    exact (List.isSuffixOf_iff_suffix).mpr (List.suffix_refl _)
  · intro z n
    rw [Name.zone_of]
    exact List.isSuffixOf_iff_suffix

/-- C4 witness: the zone `corp.example.com` is a zone of itself and of
`vpn.CORP.Example.com`. -/
theorem C4_zone_of_spec_witness :
    exZone.zone_of exZone = true ∧
    exZone.zone_of ⟨["vpn", "CORP", "Example", "com"]⟩ = true := by
  refine ⟨C4_zone_of_spec.1 exZone, ?_⟩
  exact (C4_zone_of_spec.2 exZone ⟨["vpn", "CORP", "Example", "com"]⟩).mpr
    ⟨["vpn"], by decide⟩

theorem log_dns_response_single (s : EngineState) (now : Nat) (a : Answer) :
    log_dns_response s now [a]
      = ((processAnswer s now a).1, (processAnswer s now a).2) := by
  simp [log_dns_response]

/-- C2 — for an A-record answer: when the owner matches a configured zone
the emitted events are exactly one log-upsert intent for the owner
followed by one route intent for the carried address; when the owner
matches no zone but is in the alias set, exactly one route intent and no
log-upsert intent. -/
theorem C2_a_record_intents (s : EngineState) (now : Nat) (n : Name)
    (addr : Nat) :
    (s.corp_zones.any (fun z => z.zone_of n) = true →
      (processAnswer s now ⟨n, RecordType.A, some (RData.a addr)⟩).2
        = [Event.logUpsert n.display, Event.route addr]) ∧
    (s.corp_zones.any (fun z => z.zone_of n) = false →
      aliasContains s.aliasSet n = true →
      (processAnswer s now ⟨n, RecordType.A, some (RData.a addr)⟩).2
        = [Event.route addr]) := by
  constructor
  · intro hc
    simp [processAnswer, hc]
  · intro hc ha
    simp [processAnswer, hc, ha]

/-- C2 witness: the corp zone itself resolving to address 99. -/
theorem C2_a_record_intents_witness :
    exS0.corp_zones.any (fun z => z.zone_of exZone) = true ∧
    (processAnswer exS0 7 ⟨exZone, RecordType.A, some (RData.a 99)⟩).2
      = [Event.logUpsert "corp.example.com.", Event.route 99] := by
  refine ⟨by decide, ?_⟩
  have h := (C2_a_record_intents exS0 7 exZone 99).1 (by decide)
  rw [h]
  decide

/-- C3 — a CNAME answer whose owner matches a configured zone inserts its
target into the alias set, so an A-record answer owned by that target in
a later response produces a route intent for the carried address, even
though the target matches no configured zone. -/
theorem C3_cname_then_a (s : EngineState) (now1 now2 : Nat)
    (owner tgt : Name) (addr : Nat)
    (hcorp : s.corp_zones.any (fun z => z.zone_of owner) = true)
    (hno : s.corp_zones.any (fun z => z.zone_of tgt) = false) :
    Event.route addr ∈
      (log_dns_response
        (log_dns_response s now1
          [⟨owner, RecordType.CNAME, some (RData.cname tgt)⟩]).1
        now2 [⟨tgt, RecordType.A, some (RData.a addr)⟩]).2 := by
  simp only [log_dns_response_single]
  have hz := (processAnswer_core s now1
    ⟨owner, RecordType.CNAME, some (RData.cname tgt)⟩).1
  have hal : (processAnswer s now1
      ⟨owner, RecordType.CNAME, some (RData.cname tgt)⟩).1.aliasSet
      = aliasInsert s.aliasSet tgt := by
    simp [processAnswer, hcorp]
  set X := (processAnswer s now1
    ⟨owner, RecordType.CNAME, some (RData.cname tgt)⟩).1 with hX
  clear hX
  simp only [processAnswer]
  simp only [hz, hal]
  simp [hno, aliasContains_insert_self]

/-- C3 witness: `CNAME corp.example.com -> edge.cdn.net` in one response,
then `A edge.cdn.net -> 1234` in a later response, yields the route. -/
theorem C3_cname_then_a_witness :
    exS0.corp_zones.any (fun z => z.zone_of exZone) = true ∧
    exS0.corp_zones.any (fun z => z.zone_of exEdge) = false ∧
    Event.route 1234 ∈
      (log_dns_response (log_dns_response exS0 3 [exAnsCname]).1
        4 [exAnsA]).2 :=
  ⟨by decide, by decide,
    C3_cname_then_a exS0 3 4 exZone exEdge 1234 (by decide) (by decide)⟩

/-- Processing one answer either leaves the alias set unchanged, or the
answer is a zone-matching CNAME and the alias set becomes the insertion
of its target. -/
theorem processAnswer_aliasSet (s : EngineState) (now : Nat) (ans : Answer) :
    (processAnswer s now ans).1.aliasSet = s.aliasSet ∨
    (s.corp_zones.any (fun z => z.zone_of ans.name) = true ∧
     ∃ cn, ans.rr_type = RecordType.CNAME ∧ ans.data = some (RData.cname cn) ∧
       (processAnswer s now ans).1.aliasSet = aliasInsert s.aliasSet cn) := by
  obtain ⟨nm, rt, d⟩ := ans
  cases rt <;> rcases d with - | (addr | cn) <;>
    by_cases hc : s.corp_zones.any (fun z => z.zone_of nm) = true <;>
      simp [processAnswer, hc]

/-- C8 — the alias set grows monotonically: one processed answer never
removes a member and adds at most one name, and a genuinely new member is
exactly the CNAME target of an answer whose owner matched a configured
zone. -/
theorem C8_alias_monotone (s : EngineState) (now : Nat) (ans : Answer) :
    (∀ n, n ∈ s.aliasSet → n ∈ (processAnswer s now ans).1.aliasSet) ∧
    (processAnswer s now ans).1.aliasSet.length ≤ s.aliasSet.length + 1 ∧
    (∀ n, n ∈ (processAnswer s now ans).1.aliasSet → n ∉ s.aliasSet →
      ans.rr_type = RecordType.CNAME ∧ ans.data = some (RData.cname n) ∧
      s.corp_zones.any (fun z => z.zone_of ans.name) = true) := by
  rcases processAnswer_aliasSet s now ans with h | ⟨hc, cn, hrt, hd, h⟩
  · rw [h]
    exact ⟨fun n hn => hn, Nat.le_succ _,
      fun n hn hn2 => absurd hn hn2⟩
  · rw [h]
    unfold aliasInsert
    by_cases hmem : aliasContains s.aliasSet cn = true
    · rw [if_pos hmem]
      exact ⟨fun n hn => hn, Nat.le_succ _, fun n hn hn2 => absurd hn hn2⟩
    · rw [if_neg hmem]
      refine ⟨fun n hn => List.mem_cons_of_mem _ hn, by simp,
        fun n hn hn2 => ?_⟩
      rcases List.mem_cons.mp hn with rfl | hn3
      · exact ⟨hrt, hd, hc⟩
      · exact absurd hn3 hn2

/-- C8 witness: processing `CNAME corp.example.com -> edge.cdn.net` from
the empty alias set adds `edge.cdn.net`, and the theorem identifies it as
the CNAME target of a zone-matching answer. -/
theorem C8_alias_monotone_witness :
    exAnsCname.rr_type = RecordType.CNAME ∧
    exAnsCname.data = some (RData.cname exEdge) ∧
    exS0.corp_zones.any (fun z => z.zone_of exAnsCname.name) = true :=
  (C8_alias_monotone exS0 7 exAnsCname).2.2 exEdge (by decide) (by decide)

/-! Lemmas about the upsert on the `dns_log` rows. -/

theorem fst_upsert_map (rows : List (String × Nat)) (host : String) (t : Nat) :
    (rows.map (fun r => if r.1 == host then (host, t) else r)).map Prod.fst
      = rows.map Prod.fst := by
  rw [List.map_map]
  refine List.map_congr_left ?_
  intro r hr
  simp only [Function.comp_apply]
  by_cases h : (r.1 == host) = true
  · rw [if_pos h]
    exact (eq_of_beq h).symm
  · rw [if_neg h]

theorem upsertRow_keys_nodup (rows : List (String × Nat)) (host : String)
    (t : Nat) (h : (rows.map Prod.fst).Nodup) :
    ((upsertRow rows host t).map Prod.fst).Nodup := by
  unfold upsertRow
  by_cases hmem : rows.any (fun r => r.1 == host) = true
  · rw [if_pos hmem, fst_upsert_map]
    exact h
  · rw [if_neg hmem, List.map_append]
    rw [List.nodup_append]
    refine ⟨h, by simp, ?_⟩
    intro a ha hb
    simp only [List.map_cons, List.map_nil, List.mem_singleton] at hb
    subst hb
    rw [List.mem_map] at ha
    obtain ⟨r, hr, hr2⟩ := ha
    rw [Bool.not_eq_true, List.any_eq_false] at hmem
    have := hmem r hr
    rw [hr2] at this
    simp at this

theorem filter_host_nil (rows : List (String × Nat)) (host : String)
    (h : rows.any (fun r => r.1 == host) = false) :
    rows.filter (fun r => r.1 == host) = [] := by
  rw [List.filter_eq_nil_iff]
  intro r hr
  rw [List.any_eq_false] at h
  simp [h r hr]

theorem filter_upsert_map (rows : List (String × Nat)) (host : String)
    (t : Nat) (hmem : rows.any (fun r => r.1 == host) = true)
    (h : (rows.map Prod.fst).Nodup) :
    (rows.map (fun r => if r.1 == host then (host, t) else r)).filter
        (fun r => r.1 == host) = [(host, t)] := by
  induction rows with
  | nil => simp at hmem
  | cons r rest ih =>
    rw [List.map_cons, List.nodup_cons] at h
    by_cases hr : (r.1 == host) = true
    · rw [List.map_cons, if_pos hr, List.filter_cons, if_pos (by simp)]
      have hnone : ∀ x ∈ rest, (x.1 == host) = false := by
        intro x hx
        have hxne : x.1 ≠ host := by
          intro hcontr
          exact h.1 (by
            rw [eq_of_beq hr, ← hcontr]
            exact List.mem_map_of_mem Prod.fst hx)
        simp [hxne]
      have hfil : (rest.map
          (fun r => if r.1 == host then (host, t) else r)).filter
          (fun r => r.1 == host) = [] := by
        rw [List.filter_eq_nil_iff]
        intro a ha
        rw [List.mem_map] at ha
        obtain ⟨x, hx, rfl⟩ := ha
        rw [if_neg (by simp [hnone x hx])]
        simp [hnone x hx]
      rw [hfil]
    · rw [List.map_cons, if_neg hr, List.filter_cons, if_neg (by simp [hr])]
      have hr2 : (r.1 == host) = false := by rwa [Bool.not_eq_true] at hr
      rw [List.any_cons, hr2, Bool.false_or] at hmem
      exact ih hmem h.2

theorem filter_upsertRow (rows : List (String × Nat)) (host : String)
    (t : Nat) (h : (rows.map Prod.fst).Nodup) :
    (upsertRow rows host t).filter (fun r => r.1 == host) = [(host, t)] := by
  unfold upsertRow
  by_cases hmem : rows.any (fun r => r.1 == host) = true
  · rw [if_pos hmem]
    exact filter_upsert_map rows host t hmem h
  · rw [if_neg hmem]
    rw [List.filter_append,
      filter_host_nil rows host (by rwa [Bool.not_eq_true] at hmem)]
    simp

/-- C5 — last write wins: with the unique-host index invariant and no I/O
failure on this host, `on_query host t1` then `on_query host t2` succeed
and leave exactly one row keyed by `host`, with timestamp `t2`. -/
theorem C5_upsert_last_write_wins (st : Store) (host : String) (t1 t2 : Nat)
    (hnodup : (st.rows.map Prod.fst).Nodup)
    (hio : st.ioFail host = false) :
    ∃ st1 st2, st.on_query host t1 = Except.ok st1 ∧
      st1.on_query host t2 = Except.ok st2 ∧
      st2.rows.filter (fun r => r.1 == host) = [(host, t2)] := by
  refine ⟨{ st with rows := upsertRow st.rows host t1 },
    { st with rows := upsertRow (upsertRow st.rows host t1) host t2 },
    ?_, ?_, ?_⟩
  · simp [Store.on_query, hio]
  · simp [Store.on_query, hio]
  · exact filter_upsertRow _ host t2 (upsertRow_keys_nodup _ host t1 hnodup)

/-- A store with one old row and no injected I/O failures. -/
def exStore : Store := ⟨[("a", 5)], fun _ => false, false⟩

/-- C5 witness: two upserts of `host.example.com` at 11 then 22 leave one
row with timestamp 22. -/
theorem C5_upsert_last_write_wins_witness :
    (exStore.rows.map Prod.fst).Nodup ∧
    exStore.ioFail "host.example.com" = false ∧
    ∃ st1 st2, exStore.on_query "host.example.com" 11 = Except.ok st1 ∧
      st1.on_query "host.example.com" 22 = Except.ok st2 ∧
      st2.rows.filter (fun r => r.1 == "host.example.com")
        = [("host.example.com", 22)] :=
  ⟨by decide, rfl,
    C5_upsert_last_write_wins exStore "host.example.com" 11 22 (by decide) rfl⟩

/-- Membership in the result of the `load_entries` cursor loop. -/
theorem mem_loadFilter (recent : Nat) (rows : List (String × Nat))
    (e : LogEntry) :
    e ∈ loadFilter recent rows ↔
      ((e.host, e.timestamp) ∈ rows ∧ recent < e.timestamp ∧
        e.timestamp ≠ 0 ∧ e.host ≠ "") := by
  obtain ⟨ets, eh⟩ := e
  induction rows with
  | nil => simp [loadFilter]
  | cons r rest ih =>
    obtain ⟨h, ts⟩ := r
    simp only [loadFilter, List.mem_cons, Prod.mk.injEq]
    by_cases h1 : recent < ts
    · rw [if_pos h1]
      by_cases h2 : (ts != 0 && h != "") = true
      · rw [if_pos h2]
        rw [Bool.and_eq_true, bne_iff_ne, bne_iff_ne] at h2
        simp only [List.cons_append, List.nil_append, List.mem_cons,
          LogEntry.mk.injEq, ih]
        constructor
        · rintro (⟨rfl, rfl⟩ | ⟨hm, hp⟩)
          · exact ⟨Or.inl ⟨rfl, rfl⟩, h1, h2.1, h2.2⟩
          · exact ⟨Or.inr hm, hp⟩
        · rintro ⟨⟨rfl, rfl⟩ | hm, hp⟩
          · exact Or.inl ⟨rfl, rfl⟩
          · exact Or.inr ⟨hm, hp⟩
      · rw [if_neg h2, List.nil_append, ih]
        rw [Bool.and_eq_true, bne_iff_ne, bne_iff_ne] at h2
        constructor
        · rintro ⟨hm, hp⟩
          exact ⟨Or.inr hm, hp⟩
        · rintro ⟨⟨rfl, rfl⟩ | hm, hp⟩
          · exact absurd ⟨hp.2.1, hp.2.2⟩ h2
          · exact ⟨hm, hp⟩
    · rw [if_neg h1, ih]
      constructor
      · rintro ⟨hm, hp⟩
        exact ⟨Or.inr hm, hp⟩
      · rintro ⟨⟨rfl, rfl⟩ | hm, hp⟩
        · exact absurd hp.1 h1
        · exact ⟨hm, hp⟩

/-- C6 — with the 7-day window (`604800` seconds) and a clock past the
window, a successful `load_entries` returns exactly the rows whose
timestamp is strictly greater than `now - 604800`, skipping rows with a
zero timestamp or an empty host. -/
theorem C6_load_recent_window (st : Store) (now : Nat) (e : LogEntry)
    (hload : st.loadFail = false) (_hnow : 604800 ≤ now) :
    ∃ es, (st.load_entries now).1 = Except.ok es ∧
      (e ∈ es ↔ ((e.host, e.timestamp) ∈ st.rows ∧
        now - 604800 < e.timestamp ∧ e.timestamp ≠ 0 ∧ e.host ≠ "")) := by
  refine ⟨loadFilter (now - 86400 * 7) st.rows, ?_, ?_⟩
  · simp [Store.load_entries, hload]
  · have h7 : (86400 * 7 : Nat) = 604800 := by norm_num
    rw [h7]
    exact mem_loadFilter (now - 604800) st.rows e

/-- C6 witness: at `now = 1000000`, a row seen one hour ago is loaded
(the same store also carries rows 8 days old, with an empty host and with
a zero timestamp, none of which qualify). -/
theorem C6_load_recent_window_witness :
    (⟨[("a.com", 996400), ("b.com", 308800), ("", 999000), ("c.com", 0)],
        fun _ => false, false⟩ : Store).loadFail = false ∧
    604800 ≤ 1000000 ∧
    (∃ es, ((⟨[("a.com", 996400), ("b.com", 308800), ("", 999000),
        ("c.com", 0)], fun _ => false, false⟩ : Store).load_entries
        1000000).1 = Except.ok es ∧
      (({ timestamp := 996400, host := "a.com" } : LogEntry) ∈ es ↔
        (("a.com", 996400) ∈ [("a.com", 996400), ("b.com", 308800),
          ("", 999000), ("c.com", 0)] ∧
         1000000 - 604800 < 996400 ∧ 996400 ≠ 0 ∧ "a.com" ≠ ""))) :=
  ⟨rfl, by norm_num,
    C6_load_recent_window _ 1000000 { timestamp := 996400, host := "a.com" }
      rfl (by norm_num)⟩

/-- C7 — `load_entries` is read-only: it returns the store unchanged (the
body is a single SELECT; no row is inserted, deleted or modified). -/
theorem C7_load_entries_read_only (st : Store) (now : Nat) :
    (st.load_entries now).2 = st ∧ (st.load_entries now).2.rows = st.rows := by
  refine ⟨?_, ?_⟩ <;> unfold Store.load_entries <;> split <;> rfl

/-! Store independence of the engine's visible behaviour (C9). -/

/-- Two engine states that agree on everything except the store. -/
def sameCore (a b : EngineState) : Prop :=
  a.target = b.target ∧ a.aliasSet = b.aliasSet ∧ a.corp_zones = b.corp_zones

theorem processAnswer_store_indep (a b : EngineState) (now : Nat)
    (ans : Answer) (h : sameCore a b) :
    sameCore (processAnswer a now ans).1 (processAnswer b now ans).1 ∧
    (processAnswer a now ans).2 = (processAnswer b now ans).2 := by
  obtain ⟨nm, rt, d⟩ := ans
  obtain ⟨ht, ha, hz⟩ := h
  cases rt <;> rcases d with - | (addr | cn) <;>
    simp [processAnswer, sameCore, ht, ha, hz] <;>
      split <;> simp [ht, ha, hz]

theorem log_dns_response_store_indep (answers : List Answer)
    (a b : EngineState) (now : Nat) (h : sameCore a b) :
    sameCore (log_dns_response a now answers).1
      (log_dns_response b now answers).1 ∧
    (log_dns_response a now answers).2 = (log_dns_response b now answers).2 := by
  induction answers generalizing a b with
  | nil => simpa [log_dns_response]
  | cons x t ih =>
    have hp := processAnswer_store_indep a b now x h
    have hq := ih _ _ hp.1
    simp only [log_dns_response]
    exact ⟨hq.1, by rw [hp.2, hq.2]⟩

/-- C9 — `StoreError` is absorbed: with no store configured the log
operation is a no-op; an I/O failure on the (trimmed) host leaves the
store exactly as it was; and the emitted events (route dispatch and log
intents, for every answer of a response) together with the alias set
never depend on the store component at all, so a failure cannot abort the
record dispatch of that answer or of any later answer. -/
theorem C9_store_error_absorbed :
    (∀ (host : String) (now : Nat), on_query_corp none host now = none) ∧
    (∀ (st : Store) (host : String) (now : Nat),
      st.ioFail (trim_end_dots host) = true →
      on_query_corp (some st) host now = some st) ∧
    (∀ (tg : Nat) (al zs : List Name) (st1 st2 : Option Store) (now : Nat)
        (answers : List Answer),
      (log_dns_response ⟨tg, al, zs, st1⟩ now answers).1.aliasSet
          = (log_dns_response ⟨tg, al, zs, st2⟩ now answers).1.aliasSet ∧
      (log_dns_response ⟨tg, al, zs, st1⟩ now answers).2
          = (log_dns_response ⟨tg, al, zs, st2⟩ now answers).2) := by
  refine ⟨fun host now => rfl, fun st host now hio => ?_, ?_⟩
  · rw [on_query_corp, Store.on_query, if_pos hio]
  · intro tg al zs st1 st2 now answers
    have h := log_dns_response_store_indep answers ⟨tg, al, zs, st1⟩
      ⟨tg, al, zs, st2⟩ now ⟨rfl, rfl, rfl⟩
    exact ⟨h.1.2.1, h.2⟩

/-- A store whose underlying I/O fails exactly on `corp.example.com`. -/
def exFailStore : Store :=
  ⟨[("x", 1)], fun h => h == "corp.example.com", false⟩

/-- C9 witness: logging `corp.example.com.` against the failing store
leaves the store unchanged. -/
theorem C9_store_error_absorbed_witness :
    exFailStore.ioFail (trim_end_dots "corp.example.com.") = true ∧
    on_query_corp (some exFailStore) "corp.example.com." 9 = some exFailStore :=
  ⟨by decide,
    C9_store_error_absorbed.2.1 exFailStore "corp.example.com." 9 (by decide)⟩

/-! Trailing-dot stripping of persisted host keys (C10). -/

theorem head_dropWhile_false {α : Type} (p : α → Bool) (l : List α) (c : α)
    (h : (l.dropWhile p).head? = some c) : p c = false := by
  induction l with
  | nil => simp [List.dropWhile] at h
  | cons a t ih =>
    rw [List.dropWhile_cons] at h
    by_cases hp : p a = true
    · rw [if_pos hp] at h
      exact ih h
    · rw [if_neg hp] at h
      rw [List.head?_cons, Option.some.injEq] at h
      rw [Bool.not_eq_true, h] at hp
      exact hp

theorem endsDot_trim_end_dots (s : String) :
    endsDot (trim_end_dots s) = false := by
  rw [trim_end_dots, endsDot]
  rw [List.getLast?_reverse]
  cases hh : (s.data.reverse.dropWhile (fun c => c == '.')).head? with
  | none => rfl
  | some c =>
    have := head_dropWhile_false (fun c => c == '.') s.data.reverse c hh
    simpa using this

theorem mem_keys_upsertRow (rows : List (String × Nat)) (host : String)
    (t : Nat) (k : String) (h : k ∈ (upsertRow rows host t).map Prod.fst) :
    k = host ∨ k ∈ rows.map Prod.fst := by
  unfold upsertRow at h
  by_cases hmem : rows.any (fun r => r.1 == host) = true
  · rw [if_pos hmem, fst_upsert_map] at h
    exact Or.inr h
  · rw [if_neg hmem, List.map_append] at h
    rcases List.mem_append.mp h with h2 | h2
    · exact Or.inr h2
    · simp only [List.map_cons, List.map_nil, List.mem_singleton] at h2
      exact Or.inl h2

theorem mem_storeKeys_on_query_corp (store : Option Store) (host : String)
    (now : Nat) (k : String)
    (h : k ∈ storeKeys (on_query_corp store host now)) :
    k = trim_end_dots host ∨ k ∈ storeKeys store := by
  cases store with
  | none => exact Or.inr h
  | some st =>
    rw [on_query_corp, Store.on_query] at h
    by_cases hio : st.ioFail (trim_end_dots host) = true
    · rw [if_pos hio] at h
      exact Or.inr h
    · rw [if_neg hio] at h
      exact mem_keys_upsertRow st.rows (trim_end_dots host) now k h

/-- The store after one answer is either untouched or the result of
`on_query_corp` on the owner's display string. -/
theorem processAnswer_store (s : EngineState) (now : Nat) (ans : Answer) :
    (processAnswer s now ans).1.store = s.store ∨
    (processAnswer s now ans).1.store
      = on_query_corp s.store ans.name.display now := by
  obtain ⟨nm, rt, d⟩ := ans
  cases rt <;> rcases d with - | (addr | cn) <;>
    by_cases hc : s.corp_zones.any (fun z => z.zone_of nm) = true <;>
      simp [processAnswer, hc]

theorem noDot_keys_processAnswer (s : EngineState) (now : Nat) (ans : Answer)
    (h : ∀ k ∈ storeKeys s.store, endsDot k = false) :
    ∀ k ∈ storeKeys (processAnswer s now ans).1.store, endsDot k = false := by
  intro k hk
  rcases processAnswer_store s now ans with hs | hs
  · exact h k (hs ▸ hk)
  · rw [hs] at hk
    rcases mem_storeKeys_on_query_corp s.store ans.name.display now k hk with
      rfl | h2
    · exact endsDot_trim_end_dots _
    · exact h k h2

/-- C10 — persisted host keys never end in a dot: trailing-dot trimming
produces a dot-free key, and processing any response preserves the
invariant that every host key in the store is dot-free (a new key is
always the trimmed string form of the owner name). -/
theorem C10_keys_trimmed :
    (∀ host : String, endsDot (trim_end_dots host) = false) ∧
    (∀ (s : EngineState) (now : Nat) (answers : List Answer),
      (∀ k ∈ storeKeys s.store, endsDot k = false) →
      ∀ k ∈ storeKeys (log_dns_response s now answers).1.store,
        endsDot k = false) := by
  refine ⟨endsDot_trim_end_dots, ?_⟩
  intro s now answers
  induction answers generalizing s with
  | nil =>
    intro h k hk
    exact h k hk
  | cons a t ih =>
    intro h k hk
    rw [log_dns_response] at hk
    exact ih _ (noDot_keys_processAnswer s now a h) k hk

/-- C10 witness: feeding `A corp.example.com. -> 99` to an engine with an
empty store and the zone `corp.example.com` leaves a store whose single
key `corp.example.com` does not end in a dot. -/
theorem C10_keys_trimmed_witness :
    endsDot "corp.example.com" = false ∧
    "corp.example.com" ∈ storeKeys
      (log_dns_response ⟨1, [], [exZone], some ⟨[], fun _ => false, false⟩⟩
        7 [⟨exZone, RecordType.A, some (RData.a 99)⟩]).1.store :=
  ⟨C10_keys_trimmed.2 ⟨1, [], [exZone], some ⟨[], fun _ => false, false⟩⟩
      7 [⟨exZone, RecordType.A, some (RData.a 99)⟩]
      (fun k hk => absurd hk (by simp [storeKeys]))
      "corp.example.com" (by decide),
    by decide⟩

end AutoRoute
